import Mathlib

/-!
Verification of the client-side incremental-list synchronization pattern of the
video-DD repository: the merge-by-key accumulator, the incremental pager state,
the fetch-envelope normalizer, and the optimistic mutators of the Watch page.

The definitions below are shallow embeddings of the TypeScript source:
JavaScript `Map` insertion-order semantics become an association list with
in-place update, React `useState` values become fields of explicit state
records threaded through pure step functions, `useRef` cells become fields
mutated within a single synchronous event turn, and a remote call's two
possible resolutions become an `Except` parameter of the step function.
-/

/-! ### JavaScript `Map` semantics and the merge-by-id accumulator

Home.fetchPage, SuggestedVideos.fetchPage and Threads.fetchPage all append a
fetched page with the literal code

  const map = new Map();
  for (const v of prev) map.set(v._id, v);
  for (const v of docs) map.set(v._id, v);
  return Array.from(map.values());

`Map.set` on a present key overwrites the value but keeps the key's original
insertion position; `Map.values()` iterates in key insertion order.  We model
the map as an association list in insertion order. -/

/-- Keys of a map, in insertion order. -/
def keysOf {K V : Type} (m : List (K × V)) : List K :=
  m.map Prod.fst

/-- One `map.set k v` step: overwrite in place if the key is present,
otherwise append the new entry at the end. -/
def mapSet {K V : Type} [DecidableEq K] (m : List (K × V)) (k : K) (v : V) :
    List (K × V) :=
  if k ∈ keysOf m then
    m.map (fun e => if e.1 = k then (k, v) else e)
  else
    m ++ [(k, v)]

/-- Fold a sequence of `set` operations over a map, left to right
(the `for (const v of xs) map.set(...)` loop). -/
def setPairs {K V : Type} [DecidableEq K] (m : List (K × V)) (ps : List (K × V)) :
    List (K × V) :=
  ps.foldl (fun acc p => mapSet acc p.1 p.2) m

/-- The `(v._id, v)` pairs fed to the map by the loop over an item list. -/
def toPairs {K V : Type} (key : V → K) (xs : List V) : List (K × V) :=
  xs.map (fun v => (key v, v))

/-- The append-mode merge used by Home, SuggestedVideos and Threads:
seed a Map from `prev` in order, overwrite/insert each element of `docs`
in order, and return the values in key insertion order. -/
def mergeById {K V : Type} [DecidableEq K] (key : V → K)
    (prev docs : List V) : List V :=
  (setPairs (setPairs [] (toPairs key prev)) (toPairs key docs)).map Prod.snd

/-- The value the last occurrence of key `k` in `ps` carries, if any
(later `set`s win). -/
def lastVal? {K V : Type} [DecidableEq K] : List (K × V) → K → Option V
  | [], _ => none
  | p :: rest, k =>
    match lastVal? rest k with
    | some w => some w
    | none => if p.1 = k then some p.2 else none

/-- Update of a single already-present entry by a batch of `set`s: it keeps its
position and takes the batch's last value for its key, if any. -/
def updEntry {K V : Type} [DecidableEq K] (ps : List (K × V)) (e : K × V) :
    K × V :=
  match lastVal? ps e.1 with
  | some w => (e.1, w)
  | none => e

/-- Effect of a batch of `set`s on the entries already present: each old entry
keeps its position and takes the batch's last value for its key, if any. -/
def updOld {K V : Type} [DecidableEq K] (ps : List (K × V)) (m : List (K × V)) :
    List (K × V) :=
  m.map (updEntry ps)

/-- Entries a batch of `set`s appends after the old entries: keys not among
`ks`, at their first occurrence position, carrying their last value. -/
def newPart {K V : Type} [DecidableEq K] : List K → List (K × V) → List (K × V)
  | _, [] => []
  | ks, p :: rest =>
    if p.1 ∈ ks then newPart ks rest
    else (p.1, (lastVal? rest p.1).getD p.2) :: newPart (ks ++ [p.1]) rest

/-- Entries of the map built by mergeById are always of the form
`(key v, v)`. -/
def Canon {K V : Type} (key : V → K) (m : List (K × V)) : Prop :=
  ∀ e ∈ m, e.1 = key e.2

/-- The map underlying `mergeById key prev docs`. -/
def mergeMap {K V : Type} [DecidableEq K] (key : V → K)
    (prev docs : List V) : List (K × V) :=
  setPairs (setPairs [] (toPairs key prev)) (toPairs key docs)

/-- The incoming page's last (authoritative) version of the item with key `k`,
if the page contains one. -/
def lastWith {K V : Type} [DecidableEq K] (key : V → K) (k : K) :
    List V → Option V
  | [] => none
  | x :: rest =>
    match lastWith key k rest with
    | some w => some w
    | none => if key x = k then some x else none

/-- The genuinely new items an incoming page contributes, given the keys `ks`
already present: first-occurrence position, last-occurrence data. -/
def newItems {K V : Type} [DecidableEq K] (key : V → K) :
    List K → List V → List V
  | _, [] => []
  | ks, x :: rest =>
    if key x ∈ ks then newItems key ks rest
    else ((lastWith key (key x) rest).getD x) :: newItems key (ks ++ [key x]) rest

/-! ### Domain record types (from the TypeScript type declarations) -/

/-- `OwnerUser` of Home.tsx. -/
structure OwnerUser where
  _id : String
  username : String
  email : String
  fullname : String
  avatar : String
  coverimage : String
  createdAt : String
  updatedAt : String
deriving DecidableEq

/-- `ApiVideo` of Home.tsx (numbers as `Int`). -/
structure ApiVideo where
  _id : String
  videoFile : String
  thumbnail : String
  title : String
  description : String
  duration : Int
  views : String
  isPublished : Bool
  owner : List OwnerUser
  createdAt : String
  updatedAt : String
  likesCount : Int
  commentCounts : Int
deriving DecidableEq

/-- `OwnerUser` of SuggestedVideos.tsx. -/
structure SvOwnerUser where
  _id : String
  username : String
  fullname : String
  avatar : Option String
deriving DecidableEq

/-- `SuggestedVideo` of SuggestedVideos.tsx. -/
structure SuggestedVideo where
  _id : String
  title : String
  thumbnail : String
  tags : List String
  owner : List SvOwnerUser
  createdAt : String
  views : String
  matchCount : Option Int
deriving DecidableEq

/-- `Owner` of Threads.tsx (all optional fields). -/
structure ThreadOwner where
  _id : String
  username : Option String
  fullname : Option String
  email : Option String
  avatar : Option String
deriving DecidableEq

/-- `PostDoc` of Threads.tsx; `owner?: Owner | null` collapses to `Option`. -/
structure PostDoc where
  _id : String
  content : String
  owner : Option ThreadOwner
  likesCount : Option Int
  commentCounts : Option Int
  createdAt : Option String
  updatedAt : Option String
deriving DecidableEq

/-- `CommentUser` of lib/api/comments. -/
structure CommentUser where
  _id : String
  username : String
  fullname : Option String
  avatar : Option String
deriving DecidableEq

/-- `CommentItem` of lib/api/comments. -/
structure CommentItem where
  _id : String
  text : String
  video : String
  user : CommentUser
  createdAt : String
  updatedAt : String
deriving DecidableEq

/-! ### Incremental pager state of the Home view

React `useState` values are record fields; the `lockRef` `useRef` cell is the
`lock` field; a remote call's resolution is the `Except` argument (`.ok` for
the `try` continuation after `await`, `.error` for the `catch` block). -/

/-- The fields of `apiRes.data` that `Home.fetchPage` reads.  `docs` is
`some` exactly when `Array.isArray(data?.docs)` holds; the other fields are
`some` when present (`?? fallback` supplies the default otherwise). -/
structure HomePageData where
  docs : Option (List ApiVideo)
  page : Option Int
  hasNextPage : Option Bool

/-- The response body; `data` is `none` when `apiRes?.data` is absent. -/
structure HomeResp where
  data : Option HomePageData

/-- Home's `useState`/`useRef` cells. -/
structure HomeState where
  items : List ApiVideo
  page : Int
  hasNextPage : Bool
  loadingFirst : Bool
  loadingMore : Bool
  lock : Bool

/-- `Home.fetchPage(targetPage, { append })`, including the early-return on
`lockRef.current`, the `catch` branch (toast only) and the `finally` clause. -/
def homeFetchPage (s : HomeState) (targetPage : Int) (append : Bool)
    (outcome : Except Unit HomeResp) : HomeState :=
  if s.lock then s
  else
    let s1 : HomeState := { s with
      lock := true
      loadingFirst := if append then s.loadingFirst else true
      loadingMore := if append then true else s.loadingMore }
    let fin : HomeState → HomeState := fun t => { t with
      loadingFirst := if append then t.loadingFirst else false
      loadingMore := if append then false else t.loadingMore
      lock := false }
    match outcome with
    | .error _ => fin s1
    | .ok res =>
      let dataOpt := res.data
      let docs := (dataOpt.bind (fun d => d.docs)).getD []
      fin { s1 with
        page := (dataOpt.bind (fun d => d.page)).getD targetPage
        hasNextPage := (dataOpt.bind (fun d => d.hasNextPage)).getD false
        items := if append then mergeById ApiVideo._id s1.items docs
          else docs }

/-! ### Incremental pager state of the Threads view -/

/-- The fields of `payload.data` that `Threads.fetchPage` reads. -/
structure ThreadsPageData where
  docs : Option (List PostDoc)
  page : Option Int
  totalPages : Option Int

structure ThreadsResp where
  data : Option ThreadsPageData

/-- Threads' `useState`/`useRef` cells (`loadingRef` is the ref lock). -/
structure ThreadsState where
  rows : List PostDoc
  page : Int
  totalPages : Int
  loadingFirst : Bool
  loadingMore : Bool
  error : Option String
  loadingRef : Bool

/-- `Threads.fetchPage(targetPage, { append })`: early-return on
`loadingRef.current`, `setError(null)` up front, `showError` (which stores
the message) in `catch`, flag resets in `finally`. -/
def threadsFetchPage (s : ThreadsState) (targetPage : Int) (isAppend : Bool)
    (outcome : Except String ThreadsResp) : ThreadsState :=
  if s.loadingRef then s
  else
    let s1 : ThreadsState := { s with
      loadingRef := true
      error := none
      loadingFirst := if isAppend then s.loadingFirst else true
      loadingMore := if isAppend then true else s.loadingMore }
    let fin : ThreadsState → ThreadsState := fun t => { t with
      loadingFirst := if isAppend then t.loadingFirst else false
      loadingMore := if isAppend then false else t.loadingMore
      loadingRef := false }
    match outcome with
    | .error msg => fin { s1 with error := some msg }
    | .ok res =>
      let dataOpt := res.data
      let docs := (dataOpt.bind (fun d => d.docs)).getD []
      fin { s1 with
        page := (dataOpt.bind (fun d => d.page)).getD targetPage
        totalPages := (dataOpt.bind (fun d => d.totalPages)).getD 1
        rows := if isAppend then mergeById PostDoc._id s1.rows docs
          else docs }

/-! ### Incremental pager state of the SuggestedVideos view -/

/-- The fields of `payload.data` that `SuggestedVideos.fetchPage` reads. -/
structure SvPageData where
  docs : Option (List SuggestedVideo)
  totalPages : Option Int

structure SvResp where
  data : Option SvPageData

/-- SuggestedVideos' `useState` cells; this view has no ref lock. -/
structure SvState where
  items : List SuggestedVideo
  page : Int
  totalPages : Int
  loading : Bool
  loadingMore : Bool

/-- `hasMore = page < totalPages` (a derived value, recomputed per render). -/
def svHasMore (s : SvState) : Bool :=
  decide (s.page < s.totalPages)

/-- `SuggestedVideos.fetchPage(p)`: early-return when `videoId` is falsy;
never touches `page`; `catch` shows a toast only; `finally` clears both
loading flags. -/
def svFetchPage (videoId : String) (s : SvState) (p : Int)
    (outcome : Except Unit SvResp) : SvState :=
  if videoId = "" then s
  else
    let s1 : SvState := { s with
      loading := if p = 1 then true else s.loading
      loadingMore := if p = 1 then s.loadingMore else true }
    let fin : SvState → SvState := fun t =>
      { t with loading := false, loadingMore := false }
    match outcome with
    | .error _ => fin s1
    | .ok res =>
      let docs := (res.data.bind (fun d => d.docs)).getD []
      fin { s1 with
        totalPages := (res.data.bind (fun d => d.totalPages)).getD 1
        items := mergeById SuggestedVideo._id s1.items docs }

/-- `SuggestedVideos.onLoadMore`: guard on state flags, then `setPage(next)`
BEFORE awaiting `fetchPage(next)`. -/
def svOnLoadMore (videoId : String) (s : SvState)
    (outcome : Except Unit SvResp) : SvState :=
  if s.loadingMore || s.loading || !(svHasMore s) then s
  else
    let next := s.page + 1
    svFetchPage videoId { s with page := next } next outcome

/-- The `useEffect` that runs when `videoId` changes:
`setItems([]); setPage(1); setTotalPages(1)`. -/
def svReset (s : SvState) : SvState :=
  { s with items := [], page := 1, totalPages := 1 }

/-! ### Comments section state -/

/-- The fields of `res.data.data` that `CommentsSection.fetchPage` reads. -/
structure CommentsPageData where
  docs : Option (List CommentItem)
  totalDocs : Option Int
  hasNextPage : Option Bool

/-- The `"replace" | "append"` mode argument of `CommentsSection.fetchPage`. -/
inductive FetchMode where
  | replace
  | append
deriving DecidableEq

/-- CommentsSection's pager-relevant `useState` cells. -/
structure CommentsState where
  items : List CommentItem
  loading : Bool
  page : Int
  hasNextPage : Bool
  totalDocs : Int

/-- `CommentsSection.fetchPage(p, mode)`: replace installs the page, append
is plain list concatenation (`[...prev, ...docs]`), no de-duplication. -/
def commentsFetchPage (s : CommentsState) (p : Int) (mode : FetchMode)
    (outcome : Except Unit CommentsPageData) : CommentsState :=
  let s1 : CommentsState := { s with loading := true }
  let fin : CommentsState → CommentsState := fun t => { t with loading := false }
  match outcome with
  | .error _ => fin s1
  | .ok data =>
    fin { s1 with
      totalDocs := data.totalDocs.getD 0
      hasNextPage := data.hasNextPage.getD false
      items := match mode with
        | .replace => data.docs.getD []
        | .append => s1.items ++ data.docs.getD []
      page := p }

/-- The `useEffect` that runs when `videoId` changes: `setItems([]);
setPage(1); setHasNextPage(false); setTotalDocs(0)` (before refetching). -/
def commentsReset (s : CommentsState) : CommentsState :=
  { s with items := [], page := 1, hasNextPage := false, totalDocs := 0 }

/-! ### JavaScript string and value primitives used by the Watch page -/

/-- `hay.includes(needle)` on character lists. -/
def listIncludes : List Char → List Char → Bool
  | [], needle => needle.isEmpty
  | h :: t, needle => needle.isPrefixOf (h :: t) || listIncludes t needle

/-- JavaScript `String.prototype.includes`. -/
def strIncludes (hay needle : String) : Bool :=
  listIncludes hay.data needle.data

/-- JavaScript `String.prototype.toLowerCase` (the messages compared are
ASCII). -/
def strToLower (s : String) : String :=
  String.mk (s.data.map Char.toLower)

/-- A JavaScript value, as far as the code under scrutiny inspects one. -/
inductive JsVal where
  | undef
  | jnull
  | jbool (b : Bool)
  | jnum (n : Int)
  | jstr (s : String)
  | jarr (elems : List JsVal)
  | jobj (fields : List (String × JsVal))

/-- JavaScript truthiness (`NaN` not modelled; numbers are integers here). -/
def jsTruthy : JsVal → Bool
  | .undef => false
  | .jnull => false
  | .jbool b => b
  | .jnum n => decide (n ≠ 0)
  | .jstr s => !s.isEmpty
  | .jarr _ => true
  | .jobj _ => true

/-- `a ?? b` (nullish coalescing). -/
def jsNullish (a b : JsVal) : JsVal :=
  match a with
  | .undef => b
  | .jnull => b
  | _ => a

/-- `a || b`. -/
def jsOr (a b : JsVal) : JsVal :=
  if jsTruthy a then a else b

/-- `v?.name` — optional member access.  On `null`/`undefined` the chain
short-circuits to `undefined`; property access on any other non-object
(number, string, array) also yields `undefined` for the property names this
code uses. -/
def optChain (v : JsVal) (name : String) : JsVal :=
  match v with
  | .jobj fields => (fields.lookup name).getD .undef
  | _ => .undef

mutual

/-- JavaScript `String(v)` conversion (integer numbers only). -/
def jsToString : JsVal → String
  | .undef => "undefined"
  | .jnull => "null"
  | .jbool b => cond b "true" "false"
  | .jnum n => toString n
  | .jstr s => s
  | .jarr xs => jsArrToString xs
  | .jobj _ => "[object Object]"

/-- `Array.prototype.toString`: elements joined by commas, with
`null`/`undefined` elements rendered empty. -/
def jsArrToString : List JsVal → String
  | [] => ""
  | [x] =>
    match x with
    | .undef => ""
    | .jnull => ""
    | _ => jsToString x
  | x :: rest =>
    (match x with
      | .undef => ""
      | .jnull => ""
      | _ => jsToString x) ++ "," ++ jsArrToString rest

end

/-! ### The fetch-envelope normalizer `extractPlaylists` of Watch.tsx -/

/-- `const base = payload?.data ?? payload?.message ?? payload`. -/
def plBase (payload : JsVal) : JsVal :=
  jsNullish (optChain payload "data")
    (jsNullish (optChain payload "message") payload)

/-- `const docs = base?.docs || base?.data?.docs || base?.data?.data?.docs
|| base?.data || base`. -/
def plDocs (payload : JsVal) : JsVal :=
  jsOr (optChain (plBase payload) "docs")
    (jsOr (optChain (optChain (plBase payload) "data") "docs")
      (jsOr (optChain (optChain (optChain (plBase payload) "data") "data") "docs")
        (jsOr (optChain (plBase payload) "data") (plBase payload))))

/-- `Array.isArray`. -/
def isArr : JsVal → Bool
  | .jarr _ => true
  | _ => false

/-- The elements of an array value (only read under an `isArr` guard). -/
def asArr : JsVal → List JsVal
  | .jarr xs => xs
  | _ => []

/-- `extractPlaylists`: `if (Array.isArray(docs)) return docs;
if (Array.isArray(docs?.docs)) return docs.docs; return [];`.  Total by
construction — the TS original likewise cannot throw, every access being
optional-chained. -/
def extractPlaylists (payload : JsVal) : List JsVal :=
  let docs := plDocs payload
  if isArr docs then asArr docs
  else if isArr (optChain docs "docs") then asArr (optChain docs "docs")
  else []

/-- The candidate envelope locations `extractPlaylists` probes, in order. -/
def plCandidates (payload : JsVal) : List JsVal :=
  [optChain (plBase payload) "docs",
   optChain (optChain (plBase payload) "data") "docs",
   optChain (optChain (optChain (plBase payload) "data") "data") "docs",
   optChain (plBase payload) "data",
   plBase payload]

/-! ### Watch page: optimistic like / subscribe / playlist toggles -/

/-- `ApiPlaylist` of Watch.tsx; `videos?: any[]` is a raw JavaScript array. -/
structure ApiPlaylist where
  _id : String
  name : String
  description : Option String
  videos : Option (List JsVal)
  createdAt : Option String
  updatedAt : Option String

/-- `getIdsFromPlaylistVideos`: `String(v?._id || v)` over the entries, then
drop falsy, `"undefined"` and `"null"` strings. -/
def getIdsFromPlaylistVideos (videos : Option (List JsVal)) : List String :=
  match videos with
  | none => []
  | some vs =>
    (vs.map (fun v => jsToString (jsOr (optChain v "_id") v))).filter
      (fun x => !x.isEmpty && x ≠ "undefined" && x ≠ "null")

/-- The Watch page state the three optimistic mutators touch. -/
structure WatchState where
  video : Option ApiVideo
  liked : Bool
  likesCount : Int
  liking : Bool
  subscribed : Bool
  subscribing : Bool
  playlists : List ApiPlaylist

/-- The synchronous prefix of `handleToggleLike`: flip `liked`, move the
count by one in the new direction floored at 0, raise the in-flight flag.
This is the state the UI shows while the request is pending. -/
def likeOptimistic (s : WatchState) : WatchState :=
  { s with
    liked := !s.liked
    likesCount := max 0 (s.likesCount + (if !s.liked then 1 else -1))
    liking := true }

/-- The continuation of `handleToggleLike` after the remote call resolves:
reconcile with the server's message on success, restore the saved values on
failure, drop the in-flight flag either way.  `prevLiked`/`prevCount` are the
values saved before the optimistic update; `s` is the post-optimistic
state. -/
def likeSettle (prevLiked : Bool) (prevCount : Int) (s : WatchState)
    (outcome : Except Unit String) : WatchState :=
  let nextLiked := !prevLiked
  let nextCount := max 0 (prevCount + (if nextLiked then 1 else -1))
  match outcome with
  | .ok msg =>
    let lower := strToLower msg
    let serverLiked :=
      if strIncludes lower "created" then true
      else if strIncludes lower "deleted" then false
      else nextLiked
    if serverLiked ≠ nextLiked then
      { s with
        liked := serverLiked
        likesCount := max 0 (prevCount + (if serverLiked then 1 else 0) -
          (if prevLiked then 1 else 0))
        liking := false }
    else
      { s with liked := nextLiked, likesCount := nextCount, liking := false }
  | .error _ =>
    { s with liked := prevLiked, likesCount := prevCount, liking := false }

/-- `handleToggleLike` end to end: the guards, the optimistic update, and the
settlement at resolution. -/
def handleToggleLike (s : WatchState) (outcome : Except Unit String) :
    WatchState :=
  if s.video.isNone then s
  else if s.liking then s
  else likeSettle s.liked s.likesCount (likeOptimistic s) outcome

/-- `channelId = video.owner[0]?._id`. -/
def channelIdOf (s : WatchState) : Option String :=
  s.video.bind (fun v => v.owner.head?.map (fun o => o._id))

/-- The synchronous prefix of `handleToggleSubscribe`. -/
def subscribeOptimistic (s : WatchState) : WatchState :=
  { s with subscribed := !s.subscribed, subscribing := true }

/-- The continuation of `handleToggleSubscribe` after resolution. -/
def subscribeSettle (prev : Bool) (s : WatchState)
    (outcome : Except Unit String) : WatchState :=
  let next := !prev
  match outcome with
  | .ok msg =>
    let lower := strToLower msg
    let serverSubscribed :=
      if strIncludes lower "unsub" then false
      else if strIncludes lower "subscribed" then true
      else next
    { s with subscribed := serverSubscribed, subscribing := false }
  | .error _ =>
    { s with subscribed := prev, subscribing := false }

/-- `handleToggleSubscribe` end to end. -/
def handleToggleSubscribe (s : WatchState) (outcome : Except Unit String) :
    WatchState :=
  if (channelIdOf s).isNone then s
  else if s.subscribing then s
  else subscribeSettle s.subscribed (subscribeOptimistic s) outcome

/-- The optimistic rewrite `toggleVideoInPlaylist` applies to the playlist
array: on the targeted playlist, remove or prepend the video id and replace
`videos` by the resulting array of id strings. -/
def playlistOptimistic (s : WatchState) (pl : ApiPlaylist) (vid : String) :
    List ApiPlaylist :=
  let ids := getIdsFromPlaylistVideos pl.videos
  let already := vid ∈ ids
  s.playlists.map (fun x =>
    if x._id ≠ pl._id then x
    else
      let currentIds := getIdsFromPlaylistVideos x.videos
      let nextIds := if already then currentIds.filter (fun i => i ≠ vid)
        else vid :: currentIds
      { x with videos := some (nextIds.map JsVal.jstr) })

/-- `toggleVideoInPlaylist` end to end: guard on a loaded video, optimistic
rewrite, then keep it on success or restore the saved array on failure. -/
def toggleVideoInPlaylist (s : WatchState) (pl : ApiPlaylist)
    (outcome : Except Unit Unit) : WatchState :=
  match s.video with
  | none => s
  | some v =>
    let prev := s.playlists
    let s1 := { s with playlists := playlistOptimistic s pl v._id }
    match outcome with
    | .ok _ => s1
    | .error _ => { s1 with playlists := prev }

/-! ### Synchronous re-entrancy: one event turn, two loadNext invocations

Within one synchronous JavaScript turn, `useRef` cells are read and written
immediately, while `useState` values are a fixed snapshot (updates are only
visible after a re-render) and `await` suspends past the end of the turn.
Each model below runs the synchronous prefix of one loadNext invocation:
refs live in the turn record, the request counter counts calls handed to the
HTTP client. -/

/-- One synchronous invocation of Home's `fetchPage`: check `lockRef`, set
it, and issue the request; the remainder runs after the turn. -/
structure HomeTurn where
  lock : Bool
  requests : Nat

def homeLoadNextOnce (t : HomeTurn) : HomeTurn :=
  if t.lock then t else { lock := true, requests := t.requests + 1 }

/-- One synchronous invocation of Threads' `fetchPage` (the `loadingRef`
guard). -/
structure ThreadsTurn where
  loadingRef : Bool
  requests : Nat

def threadsLoadNextOnce (t : ThreadsTurn) : ThreadsTurn :=
  if t.loadingRef then t else { loadingRef := true, requests := t.requests + 1 }

/-- The state snapshot SuggestedVideos' `onLoadMore` closes over. -/
structure SvSnapshot where
  videoId : String
  loading : Bool
  loadingMore : Bool
  page : Int
  totalPages : Int

/-- One synchronous invocation of SuggestedVideos' `onLoadMore`: the guard
reads only snapshotted `useState` values (`loadingMore`, `loading`,
`hasMore`), then `fetchPage` checks `videoId` and issues the request.  There
is no ref, so nothing carries over within the turn but the request count. -/
def svLoadMoreOnce (snap : SvSnapshot) (requests : Nat) : Nat :=
  if snap.loadingMore || snap.loading || !(decide (snap.page < snap.totalPages))
  then requests
  else if snap.videoId = "" then requests
  else requests + 1

/-! ### Concrete fixtures for scenario conjuncts, counterexamples and
witnesses -/

/-- A concrete loaded video for the Watch page scenarios. -/
def sampleVideo : ApiVideo :=
  { _id := "vid1", videoFile := "f", thumbnail := "t", title := "T",
    description := "", duration := 10, views := "3", isPublished := true,
    owner := [], createdAt := "", updatedAt := "", likesCount := 5,
    commentCounts := 0 }

/-- Watch page state of end-to-end scenario C: `likesCount = 5`,
`liked = false`, nothing in flight. -/
def watchStart : WatchState :=
  { video := some sampleVideo, liked := false, likesCount := 5,
    liking := false, subscribed := false, subscribing := false,
    playlists := [] }

/-- Suggested-video fixture `i`. -/
def mkSv (i : Nat) : SuggestedVideo :=
  { _id := "v" ++ toString i, title := "t" ++ toString i, thumbnail := "",
    tags := [], owner := [], createdAt := "", views := "0",
    matchCount := none }

/-- Page one of end-to-end scenario B: ten items `v1 … v10`. -/
def pageOne : List SuggestedVideo :=
  (List.range 10).map (fun i => mkSv (i + 1))

/-- Page two of scenario B: its first item collides with `v10` but carries
different data, followed by `v11 … v19`. -/
def pageTwo : List SuggestedVideo :=
  { mkSv 10 with title := "updated" } ::
    (List.range 9).map (fun i => mkSv (i + 11))

/-- The merge scenario B must produce: `v1 … v9` unchanged, then `v10` with
the page-two data at its original position, then `v11 … v19`. -/
def expectedMerge : List SuggestedVideo :=
  (List.range 9).map (fun i => mkSv (i + 1)) ++
    ({ mkSv 10 with title := "updated" } ::
      (List.range 9).map (fun i => mkSv (i + 11)))

/-- A SuggestedVideos pager state with one more server page available. -/
def svStart : SvState :=
  { items := [mkSv 1], page := 1, totalPages := 2, loading := false,
    loadingMore := false }

/-- The render snapshot corresponding to `svStart` on the watch page of a
video. -/
def svSnap : SvSnapshot :=
  { videoId := "vid1", loading := false, loadingMore := false, page := 1,
    totalPages := 2 }

/-- A comments fixture. -/
def sampleComment : CommentItem :=
  { _id := "c1", text := "hi", video := "vid1",
    user := { _id := "u1", username := "u", fullname := none, avatar := none },
    createdAt := "", updatedAt := "" }

/-- A fetched comments page that returns `sampleComment` again. -/
def dupPage : CommentsPageData :=
  { docs := some [sampleComment], totalDocs := some 11,
    hasNextPage := some false }

/-- A comments state that already holds `sampleComment`. -/
def commentsWithC : CommentsState :=
  { items := [sampleComment], loading := false, page := 1,
    hasNextPage := true, totalDocs := 11 }

/-- A comments state mid-life, for the reset counterexample. -/
def commentsMid : CommentsState :=
  { items := [sampleComment], loading := false, page := 3,
    hasNextPage := true, totalDocs := 31 }

/-- A Home pager state with the lock free. -/
def homeStart : HomeState :=
  { items := [], page := 0, hasNextPage := true, loadingFirst := true,
    loadingMore := false, lock := false }

/-! ### Properties of the embedded operations -/

theorem setPairs_nil {K V : Type} [DecidableEq K] (m : List (K × V)) :
    setPairs m [] = m := rfl

theorem setPairs_cons {K V : Type} [DecidableEq K] (m : List (K × V))
    (p : K × V) (ps : List (K × V)) :
    setPairs m (p :: ps) = setPairs (mapSet m p.1 p.2) ps := rfl

theorem lastVal?_nil {K V : Type} [DecidableEq K] (k : K) :
    lastVal? ([] : List (K × V)) k = none := rfl

theorem lastVal?_cons {K V : Type} [DecidableEq K] (p : K × V)
    (ps : List (K × V)) (k : K) :
    lastVal? (p :: ps) k =
      match lastVal? ps k with
      | some w => some w
      | none => if p.1 = k then some p.2 else none := rfl

theorem newPart_nil {K V : Type} [DecidableEq K] (ks : List K) :
    newPart ks ([] : List (K × V)) = [] := rfl

theorem newPart_cons {K V : Type} [DecidableEq K] (ks : List K) (p : K × V)
    (ps : List (K × V)) :
    newPart ks (p :: ps) =
      if p.1 ∈ ks then newPart ks ps
      else (p.1, (lastVal? ps p.1).getD p.2) :: newPart (ks ++ [p.1]) ps := rfl

theorem keysOf_mapSet_of_mem {K V : Type} [DecidableEq K]
    {m : List (K × V)} {k : K} (v : V) (h : k ∈ keysOf m) :
    keysOf (mapSet m k v) = keysOf m := by
  unfold mapSet
  rw [if_pos h]
  unfold keysOf
  rw [List.map_map]
  apply List.map_congr_left
  intro e _
  by_cases he : e.1 = k
  · simp [he]
  · simp [he]

theorem mapSet_of_not_mem {K V : Type} [DecidableEq K]
    {m : List (K × V)} {k : K} (v : V) (h : k ∉ keysOf m) :
    mapSet m k v = m ++ [(k, v)] := by
  unfold mapSet
  rw [if_neg h]

theorem lastVal?_cons_ne {K V : Type} [DecidableEq K]
    {p : K × V} {ps : List (K × V)} {k : K} (h : p.1 ≠ k) :
    lastVal? (p :: ps) k = lastVal? ps k := by
  rw [lastVal?_cons]
  cases hl : lastVal? ps k <;> simp [h]

theorem lastVal?_cons_eq {K V : Type} [DecidableEq K]
    {k : K} {v : V} {ps : List (K × V)} :
    lastVal? ((k, v) :: ps) k = some ((lastVal? ps k).getD v) := by
  rw [lastVal?_cons]
  cases hl : lastVal? ps k <;> simp

theorem updEntry_cons_ne {K V : Type} [DecidableEq K]
    {p : K × V} {ps : List (K × V)} {e : K × V} (h : p.1 ≠ e.1) :
    updEntry (p :: ps) e = updEntry ps e := by
  unfold updEntry
  rw [lastVal?_cons_ne h]

theorem updEntry_of_eq {K V : Type} [DecidableEq K]
    {k : K} {v : V} {ps : List (K × V)} {e : K × V} (h : e.1 = k) :
    updEntry ((k, v) :: ps) e = (k, (lastVal? ps k).getD v) := by
  unfold updEntry
  rw [h, lastVal?_cons_eq]

theorem updEntry_pair {K V : Type} [DecidableEq K]
    {k : K} {v : V} {ps : List (K × V)} :
    updEntry ps ((k, v) : K × V) = (k, (lastVal? ps k).getD v) := by
  unfold updEntry
  cases hl : lastVal? ps k <;> simp [hl]

/-- Characterization of a batch of `Map.set`s: old entries are updated in
place, genuinely new keys are appended. -/
theorem setPairs_eq {K V : Type} [DecidableEq K]
    (ps : List (K × V)) : ∀ m : List (K × V),
    setPairs m ps = updOld ps m ++ newPart (keysOf m) ps := by
  induction ps with
  | nil =>
    intro m
    rw [setPairs_nil, newPart_nil]
    unfold updOld updEntry
    simp [lastVal?_nil]
  | cons p rest ih =>
    intro m
    obtain ⟨k, v⟩ := p
    rw [setPairs_cons, ih (mapSet m (k, v).1 (k, v).2)]
    by_cases hk : k ∈ keysOf m
    · have hkeys : keysOf (mapSet m k v) = keysOf m := keysOf_mapSet_of_mem v hk
      have hupd : updOld rest (mapSet m k v) = updOld ((k, v) :: rest) m := by
        unfold mapSet
        rw [if_pos hk]
        unfold updOld
        rw [List.map_map]
        apply List.map_congr_left
        intro e _
        by_cases he : e.1 = k
        · simp only [Function.comp_apply, if_pos he]
          rw [updEntry_pair, updEntry_of_eq he]
        · simp only [Function.comp_apply, if_neg he]
          have hne : ((k, v) : K × V).1 ≠ e.1 := fun hh => he hh.symm
          rw [updEntry_cons_ne hne]
      rw [hkeys, hupd, newPart_cons, if_pos hk]
    · rw [mapSet_of_not_mem v hk]
      have hkeys : keysOf (m ++ [(k, v)]) = keysOf m ++ [k] := by
        unfold keysOf; simp
      rw [hkeys]
      have hupd : updOld rest (m ++ [(k, v)]) =
          updOld ((k, v) :: rest) m ++ [(k, (lastVal? rest k).getD v)] := by
        unfold updOld
        rw [List.map_append]
        congr 1
        · apply List.map_congr_left
          intro e he
          symm
          apply updEntry_cons_ne
          intro hek
          exact hk (by
            unfold keysOf
            exact List.mem_map.mpr ⟨e, he, hek.symm⟩)
        · simp only [List.map_cons, List.map_nil]
          rw [updEntry_pair]
      rw [hupd]
      conv_rhs => rw [newPart_cons]
      rw [if_neg hk, List.append_assoc]
      rfl

theorem keysOf_append {K V : Type} (a b : List (K × V)) :
    keysOf (a ++ b) = keysOf a ++ keysOf b := by
  unfold keysOf; simp

theorem keysOf_updOld {K V : Type} [DecidableEq K]
    (ps m : List (K × V)) : keysOf (updOld ps m) = keysOf m := by
  unfold keysOf updOld
  rw [List.map_map]
  apply List.map_congr_left
  intro e _
  simp only [Function.comp_apply]
  unfold updEntry
  cases hl : lastVal? ps e.1 <;> simp [hl]

theorem keysOf_setPairs {K V : Type} [DecidableEq K]
    (m ps : List (K × V)) :
    keysOf (setPairs m ps) = keysOf m ++ keysOf (newPart (keysOf m) ps) := by
  rw [setPairs_eq, keysOf_append, keysOf_updOld]

/-- Every entry the batch appends carries its key's last value in the batch,
and a key not among the seed keys. -/
theorem newPart_mem {K V : Type} [DecidableEq K]
    (ps : List (K × V)) : ∀ (ks : List K) (e : K × V), e ∈ newPart ks ps →
    lastVal? ps e.1 = some e.2 ∧ e.1 ∉ ks := by
  induction ps with
  | nil =>
    intro ks e he
    rw [newPart_nil] at he
    exact absurd he (List.not_mem_nil e)
  | cons p rest ih =>
    intro ks e he
    rw [newPart_cons] at he
    by_cases hp : p.1 ∈ ks
    · rw [if_pos hp] at he
      obtain ⟨h1, h2⟩ := ih ks e he
      constructor
      · rw [lastVal?_cons, h1]
      · exact h2
    · rw [if_neg hp] at he
      rcases List.mem_cons.mp he with h | h
      · subst h
        constructor
        · show lastVal? (p :: rest) p.1 = _
          obtain ⟨k, v⟩ := p
          rw [lastVal?_cons_eq]
        · exact hp
      · obtain ⟨h1, h2⟩ := ih (ks ++ [p.1]) e h
        have hne : e.1 ≠ p.1 := by
          intro hh
          exact h2 (by simp [hh])
        constructor
        · rw [lastVal?_cons_ne (fun hh => hne hh.symm), h1]
        · intro hh
          exact h2 (by simp [hh])

theorem newPart_keys_sub {K V : Type} [DecidableEq K]
    (ps : List (K × V)) : ∀ (ks : List K) (k : K),
    k ∈ keysOf (newPart ks ps) → k ∈ keysOf ps := by
  induction ps with
  | nil => intro ks k h; rw [newPart_nil] at h; exact absurd h (by simp [keysOf])
  | cons p rest ih =>
    intro ks k h
    rw [newPart_cons] at h
    by_cases hp : p.1 ∈ ks
    · rw [if_pos hp] at h
      have := ih ks k h
      unfold keysOf at *
      simp at *
      tauto
    · rw [if_neg hp] at h
      unfold keysOf at h
      rw [List.map_cons] at h
      rcases List.mem_cons.mp h with h | h
      · unfold keysOf
        rw [List.map_cons]
        exact List.mem_cons.mpr (Or.inl h)
      · have := ih (ks ++ [p.1]) k h
        unfold keysOf at *
        rw [List.map_cons]
        exact List.mem_cons.mpr (Or.inr this)

theorem newPart_keys_cover {K V : Type} [DecidableEq K]
    (ps : List (K × V)) : ∀ (ks : List K) (k : K), k ∈ keysOf ps →
    k ∈ ks ∨ k ∈ keysOf (newPart ks ps) := by
  induction ps with
  | nil => intro ks k h; exact absurd h (by simp [keysOf])
  | cons p rest ih =>
    intro ks k h
    unfold keysOf at h
    rw [List.map_cons] at h
    rw [newPart_cons]
    by_cases hp : p.1 ∈ ks
    · rw [if_pos hp]
      rcases List.mem_cons.mp h with h | h
      · subst h; exact Or.inl hp
      · exact ih ks k h
    · rw [if_neg hp]
      rcases List.mem_cons.mp h with h | h
      · subst h
        right
        unfold keysOf
        rw [List.map_cons]
        exact List.mem_cons.mpr (Or.inl rfl)
      · rcases ih (ks ++ [p.1]) k h with hh | hh
        · rcases List.mem_append.mp hh with hh | hh
          · exact Or.inl hh
          · right
            unfold keysOf
            rw [List.map_cons]
            exact List.mem_cons.mpr (Or.inl (by simpa using hh))
        · right
          unfold keysOf
          rw [List.map_cons]
          exact List.mem_cons.mpr (Or.inr hh)

theorem newPart_eq_nil {K V : Type} [DecidableEq K]
    (ps : List (K × V)) : ∀ ks : List K, (∀ p ∈ ps, p.1 ∈ ks) →
    newPart ks ps = [] := by
  induction ps with
  | nil => intro ks _; rw [newPart_nil]
  | cons p rest ih =>
    intro ks h
    rw [newPart_cons, if_pos (h p (List.mem_cons_self p rest))]
    exact ih ks (fun q hq => h q (List.mem_cons.mpr (Or.inr hq)))

/-- Membership in the merged keys is membership in either input's keys. -/
theorem keysOf_setPairs_iff {K V : Type} [DecidableEq K]
    (m ps : List (K × V)) (k : K) :
    k ∈ keysOf (setPairs m ps) ↔ k ∈ keysOf m ∨ k ∈ keysOf ps := by
  rw [keysOf_setPairs]
  constructor
  · intro h
    rcases List.mem_append.mp h with h | h
    · exact Or.inl h
    · exact Or.inr (newPart_keys_sub ps (keysOf m) k h)
  · intro h
    rcases h with h | h
    · exact List.mem_append.mpr (Or.inl h)
    · rcases newPart_keys_cover ps (keysOf m) k h with h | h
      · exact List.mem_append.mpr (Or.inl h)
      · exact List.mem_append.mpr (Or.inr h)

theorem nodup_keys_mapSet {K V : Type} [DecidableEq K]
    {m : List (K × V)} (k : K) (v : V) (h : (keysOf m).Nodup) :
    (keysOf (mapSet m k v)).Nodup := by
  by_cases hk : k ∈ keysOf m
  · rw [keysOf_mapSet_of_mem v hk]; exact h
  · rw [mapSet_of_not_mem v hk, keysOf_append]
    rw [List.nodup_append]
    refine ⟨h, List.nodup_singleton k, ?_⟩
    intro a ha hb
    have : a = k := by
      unfold keysOf at hb
      simpa using hb
    subst this
    exact hk ha

theorem nodup_keys_setPairs {K V : Type} [DecidableEq K]
    (ps : List (K × V)) : ∀ m : List (K × V), (keysOf m).Nodup →
    (keysOf (setPairs m ps)).Nodup := by
  induction ps with
  | nil => intro m h; rw [setPairs_nil]; exact h
  | cons p rest ih =>
    intro m h
    rw [setPairs_cons]
    exact ih (mapSet m p.1 p.2) (nodup_keys_mapSet p.1 p.2 h)

/-- Rebuilding a map from its own entry list is the identity when the keys are
pairwise distinct. -/
theorem setPairs_nil_self {K V : Type} [DecidableEq K]
    (m : List (K × V)) (h : (keysOf m).Nodup) : setPairs [] m = m := by
  induction m using List.reverseRecOn with
  | nil => rfl
  | append_singleton m p ih =>
    have hkeys : keysOf (m ++ [p]) = keysOf m ++ [p.1] := by
      unfold keysOf; simp
    rw [hkeys] at h
    rw [List.nodup_append] at h
    obtain ⟨h1, _, h3⟩ := h
    have hstep : setPairs ([] : List (K × V)) (m ++ [p]) =
        mapSet (setPairs [] m) p.1 p.2 := by
      unfold setPairs
      rw [List.foldl_append]
      rfl
    rw [hstep, ih h1]
    rw [mapSet_of_not_mem p.2 (fun hp => h3 hp (by simp))]

/-- Fixed points of `updOld`: a map whose every entry already carries its key's
last value in the batch is unchanged by the batch's in-place updates. -/
theorem updOld_fixed {K V : Type} [DecidableEq K]
    (ps m : List (K × V)) (h : ∀ e ∈ m, lastVal? ps e.1 = some e.2) :
    updOld ps m = m := by
  unfold updOld
  have : ∀ e ∈ m, updEntry ps e = e := by
    intro e he
    unfold updEntry
    rw [h e he]
  calc m.map (updEntry ps) = m.map id := List.map_congr_left this
  _ = m := List.map_id m

theorem updOld_append {K V : Type} [DecidableEq K]
    (ps a b : List (K × V)) :
    updOld ps (a ++ b) = updOld ps a ++ updOld ps b := by
  unfold updOld
  rw [List.map_append]

theorem updOld_updOld {K V : Type} [DecidableEq K]
    (ps m : List (K × V)) : updOld ps (updOld ps m) = updOld ps m := by
  unfold updOld
  rw [List.map_map]
  apply List.map_congr_left
  intro e _
  simp only [Function.comp_apply]
  unfold updEntry
  cases hl : lastVal? ps e.1 with
  | none => simp [hl]
  | some w => simp [hl]

/-- Replaying the same batch of `set`s is a no-op on the map. -/
theorem setPairs_idem {K V : Type} [DecidableEq K]
    (m ps : List (K × V)) :
    setPairs (setPairs m ps) ps = setPairs m ps := by
  rw [setPairs_eq ps (setPairs m ps)]
  have h1 : updOld ps (setPairs m ps) = setPairs m ps := by
    rw [setPairs_eq ps m, updOld_append, updOld_updOld]
    congr 1
    apply updOld_fixed
    intro e he
    exact (newPart_mem ps (keysOf m) e he).1
  have h2 : newPart (keysOf (setPairs m ps)) ps = [] := by
    apply newPart_eq_nil
    intro p hp
    have : p.1 ∈ keysOf ps := by
      unfold keysOf
      exact List.mem_map.mpr ⟨p, hp, rfl⟩
    exact (keysOf_setPairs_iff m ps p.1).mpr (Or.inr this)
  rw [h1, h2, List.append_nil]

theorem canon_mapSet {K V : Type} [DecidableEq K] {key : V → K}
    {m : List (K × V)} (v : V) (h : Canon key m) :
    Canon key (mapSet m (key v) v) := by
  unfold mapSet
  by_cases hk : key v ∈ keysOf m
  · rw [if_pos hk]
    intro e he
    rcases List.mem_map.mp he with ⟨e', he', heq⟩
    by_cases h1 : e'.1 = key v
    · rw [if_pos h1] at heq
      subst heq; rfl
    · rw [if_neg h1] at heq
      subst heq; exact h e' he'
  · rw [if_neg hk]
    intro e he
    rcases List.mem_append.mp he with h1 | h1
    · exact h e h1
    · have : e = (key v, v) := by simpa using h1
      subst this; rfl

theorem canon_setPairs {K V : Type} [DecidableEq K] {key : V → K}
    (xs : List V) : ∀ m : List (K × V), Canon key m →
    Canon key (setPairs m (toPairs key xs)) := by
  induction xs with
  | nil => intro m h; exact h
  | cons x rest ih =>
    intro m h
    have hstep : setPairs m (toPairs key (x :: rest)) =
        setPairs (mapSet m (key x) x) (toPairs key rest) := rfl
    rw [hstep]
    exact ih (mapSet m (key x) x) (canon_mapSet x h)

theorem toPairs_snd {K V : Type} [DecidableEq K] {key : V → K}
    (m : List (K × V)) (h : Canon key m) :
    toPairs key (m.map Prod.snd) = m := by
  unfold toPairs
  rw [List.map_map]
  have : ∀ e ∈ m, (key e.2, e.2) = e := by
    intro e he
    have := h e he
    rw [← this]
  calc m.map (fun e => (key e.2, e.2)) = m.map id := List.map_congr_left this
  _ = m := List.map_id m

theorem keysOf_toPairs {K V : Type} (key : V → K) (xs : List V) :
    keysOf (toPairs key xs) = xs.map key := by
  unfold keysOf toPairs
  rw [List.map_map]
  rfl

theorem map_key_eq_keysOf {K V : Type} {key : V → K}
    (m : List (K × V)) (h : Canon key m) :
    (m.map Prod.snd).map key = keysOf m := by
  unfold keysOf
  rw [List.map_map]
  apply List.map_congr_left
  intro e he
  exact (h e he).symm

theorem mergeById_eq_map_snd {K V : Type} [DecidableEq K] (key : V → K)
    (prev docs : List V) :
    mergeById key prev docs = (mergeMap key prev docs).map Prod.snd := rfl

theorem canon_mergeMap {K V : Type} [DecidableEq K] (key : V → K)
    (prev docs : List V) : Canon key (mergeMap key prev docs) := by
  unfold mergeMap
  exact canon_setPairs docs _ (canon_setPairs prev [] (by intro e he; cases he))

theorem nodup_keys_mergeMap {K V : Type} [DecidableEq K] (key : V → K)
    (prev docs : List V) : (keysOf (mergeMap key prev docs)).Nodup := by
  unfold mergeMap
  apply nodup_keys_setPairs
  apply nodup_keys_setPairs
  simp [keysOf]

/-- No duplicates: the merged collection's identity keys are pairwise
distinct, whatever the previous collection and the incoming page were. -/
theorem mergeById_nodup_keys {K V : Type} [DecidableEq K] (key : V → K)
    (prev docs : List V) : ((mergeById key prev docs).map key).Nodup := by
  rw [mergeById_eq_map_snd,
    map_key_eq_keysOf _ (canon_mergeMap key prev docs)]
  exact nodup_keys_mergeMap key prev docs

/-- Key completeness: a key occurs in the merged collection exactly when it
occurs in the previous collection or in the incoming page. -/
theorem mergeById_mem_keys {K V : Type} [DecidableEq K] (key : V → K)
    (prev docs : List V) (k : K) :
    k ∈ (mergeById key prev docs).map key ↔
      k ∈ prev.map key ∨ k ∈ docs.map key := by
  rw [mergeById_eq_map_snd,
    map_key_eq_keysOf _ (canon_mergeMap key prev docs)]
  unfold mergeMap
  rw [keysOf_setPairs_iff, keysOf_setPairs_iff, keysOf_toPairs, keysOf_toPairs]
  simp [keysOf]

/-- Idempotent merge: re-merging the same incoming page into the already
merged collection changes nothing. -/
theorem mergeById_idem {K V : Type} [DecidableEq K] (key : V → K)
    (prev docs : List V) :
    mergeById key (mergeById key prev docs) docs = mergeById key prev docs := by
  rw [mergeById_eq_map_snd key prev docs]
  rw [mergeById_eq_map_snd key _ docs]
  congr 1
  show setPairs
      (setPairs [] (toPairs key ((mergeMap key prev docs).map Prod.snd)))
      (toPairs key docs) = mergeMap key prev docs
  rw [toPairs_snd _ (canon_mergeMap key prev docs)]
  rw [setPairs_nil_self _ (nodup_keys_mergeMap key prev docs)]
  show setPairs (setPairs (setPairs [] (toPairs key prev)) (toPairs key docs))
      (toPairs key docs) =
    setPairs (setPairs [] (toPairs key prev)) (toPairs key docs)
  exact setPairs_idem _ _

theorem newItems_nil {K V : Type} [DecidableEq K] (key : V → K) (ks : List K) :
    newItems key ks ([] : List V) = [] := rfl

theorem newItems_cons {K V : Type} [DecidableEq K] (key : V → K) (ks : List K)
    (x : V) (rest : List V) :
    newItems key ks (x :: rest) =
      if key x ∈ ks then newItems key ks rest
      else ((lastWith key (key x) rest).getD x) ::
        newItems key (ks ++ [key x]) rest := rfl

theorem lastVal?_toPairs {K V : Type} [DecidableEq K] (key : V → K)
    (I : List V) (k : K) :
    lastVal? (toPairs key I) k = lastWith key k I := by
  induction I with
  | nil => rfl
  | cons x rest ih =>
    show lastVal? ((key x, x) :: toPairs key rest) k = _
    rw [lastVal?_cons, ih]
    rfl

theorem map_snd_newPart_toPairs {K V : Type} [DecidableEq K] (key : V → K)
    (I : List V) : ∀ ks : List K,
    (newPart ks (toPairs key I)).map Prod.snd = newItems key ks I := by
  induction I with
  | nil => intro ks; rfl
  | cons x rest ih =>
    intro ks
    show (newPart ks ((key x, x) :: toPairs key rest)).map Prod.snd = _
    rw [newPart_cons]
    by_cases hk : key x ∈ ks
    · rw [if_pos hk, ih ks, newItems_cons, if_pos hk]
    · rw [if_neg hk]
      show (((key x, x).1, (lastVal? (toPairs key rest) (key x, x).1).getD
          (key x, x).2) :: newPart (ks ++ [(key x, x).1]) (toPairs key rest)).map
          Prod.snd = _
      rw [List.map_cons, ih (ks ++ [key x])]
      show (lastVal? (toPairs key rest) (key x)).getD x :: _ =
        newItems key ks (x :: rest)
      rw [lastVal?_toPairs, newItems_cons, if_neg hk]

/-- Structure of the append-mode merge when the previous collection is
duplicate-free (the invariant the views maintain): every previous item stays
at its original position, its data replaced by the incoming page's last
version for its key when there is one, and the page's genuinely new items are
appended after them, each carrying its own last version. -/
theorem mergeById_characterize {K V : Type} [DecidableEq K] (key : V → K)
    (P I : List V) (h : (P.map key).Nodup) :
    mergeById key P I =
      P.map (fun x => (lastWith key (key x) I).getD x) ++
        newItems key (P.map key) I := by
  have hkeys : keysOf (toPairs key P) = P.map key := keysOf_toPairs key P
  have hseed : setPairs [] (toPairs key P) = toPairs key P :=
    setPairs_nil_self _ (by rw [hkeys]; exact h)
  rw [mergeById_eq_map_snd]
  unfold mergeMap
  rw [hseed, setPairs_eq, List.map_append, hkeys,
    map_snd_newPart_toPairs key I (P.map key)]
  congr 1
  have hP : toPairs key P = P.map (fun v => (key v, v)) := rfl
  unfold updOld
  rw [hP, List.map_map, List.map_map]
  apply List.map_congr_left
  intro x _
  show Prod.snd (updEntry (toPairs key I) (key x, x)) = _
  rw [updEntry_pair]
  show (lastVal? (toPairs key I) (key x)).getD x = _
  rw [lastVal?_toPairs]

/-! ### Claim theorems -/

/-- C1: for every previous collection and incoming page, the append-mode
merge-by-id used by the list views (Home over `ApiVideo`, SuggestedVideos
over `SuggestedVideo`, Threads over `PostDoc`) yields a collection whose
`_id` keys are pairwise distinct, and an `_id` occurs in the result exactly
when it occurs in one of the inputs — so every identity key appears exactly
once. -/
theorem merge_no_duplicate_ids :
    (∀ P I : List ApiVideo,
      ((mergeById ApiVideo._id P I).map ApiVideo._id).Nodup ∧
      ∀ k, k ∈ (mergeById ApiVideo._id P I).map ApiVideo._id ↔
        (k ∈ P.map ApiVideo._id ∨ k ∈ I.map ApiVideo._id)) ∧
    (∀ P I : List SuggestedVideo,
      ((mergeById SuggestedVideo._id P I).map SuggestedVideo._id).Nodup ∧
      ∀ k, k ∈ (mergeById SuggestedVideo._id P I).map SuggestedVideo._id ↔
        (k ∈ P.map SuggestedVideo._id ∨ k ∈ I.map SuggestedVideo._id)) ∧
    (∀ P I : List PostDoc,
      ((mergeById PostDoc._id P I).map PostDoc._id).Nodup ∧
      ∀ k, k ∈ (mergeById PostDoc._id P I).map PostDoc._id ↔
        (k ∈ P.map PostDoc._id ∨ k ∈ I.map PostDoc._id)) := by
  refine ⟨fun P I => ⟨?_, fun k => ?_⟩, fun P I => ⟨?_, fun k => ?_⟩,
    fun P I => ⟨?_, fun k => ?_⟩⟩
  · exact mergeById_nodup_keys ApiVideo._id P I
  · exact mergeById_mem_keys ApiVideo._id P I k
  · exact mergeById_nodup_keys SuggestedVideo._id P I
  · exact mergeById_mem_keys SuggestedVideo._id P I k
  · exact mergeById_nodup_keys PostDoc._id P I
  · exact mergeById_mem_keys PostDoc._id P I k

/-- C6: the append-mode merge of Home and SuggestedVideos is idempotent —
re-merging the same incoming page into the already-merged collection yields
the same collection, for every previous collection and page. -/
theorem merge_reapply_noop :
    (∀ P I : List ApiVideo,
      mergeById ApiVideo._id (mergeById ApiVideo._id P I) I =
        mergeById ApiVideo._id P I) ∧
    (∀ P I : List SuggestedVideo,
      mergeById SuggestedVideo._id (mergeById SuggestedVideo._id P I) I =
        mergeById SuggestedVideo._id P I) :=
  ⟨fun P I => mergeById_idem ApiVideo._id P I,
   fun P I => mergeById_idem SuggestedVideo._id P I⟩

/-- C2: end-to-end scenario C on the Watch page's like toggle.  From
`liked = false, likesCount = 5` the optimistic step immediately shows
`liked = true, likesCount = 6`; when the server then resolves with a message
containing "deleted", reconciliation recomputes from the pre-optimistic base
(`max 0 (5 + 0 - 0)`) and the final state is `liked = false,
likesCount = 5`. -/
theorem like_toggle_scenario :
    (likeOptimistic watchStart).liked = true ∧
    (likeOptimistic watchStart).likesCount = 6 ∧
    (handleToggleLike watchStart
      (.ok "Like deleted successfully")).liked = false ∧
    (handleToggleLike watchStart
      (.ok "Like deleted successfully")).likesCount = 5 := by
  refine ⟨rfl, rfl, ?_, ?_⟩ <;> decide

/-- C3: whenever the remote mutation rejects, every optimistic toggle of the
Watch page restores its local state exactly: `handleToggleLike` restores
`liked` and `likesCount`, `handleToggleSubscribe` restores `subscribed`, and
`toggleVideoInPlaylist` restores the playlists array. -/
theorem optimistic_rollback_on_error :
    ∀ (s : WatchState) (pl : ApiPlaylist),
      (handleToggleLike s (.error ())).liked = s.liked ∧
      (handleToggleLike s (.error ())).likesCount = s.likesCount ∧
      (handleToggleSubscribe s (.error ())).subscribed = s.subscribed ∧
      (toggleVideoInPlaylist s pl (.error ())).playlists = s.playlists := by
  intro s pl
  refine ⟨?_, ?_, ?_, ?_⟩
  · unfold handleToggleLike
    split
    · rfl
    · split
      · rfl
      · rfl
  · unfold handleToggleLike
    split
    · rfl
    · split
      · rfl
      · rfl
  · unfold handleToggleSubscribe
    split
    · rfl
    · split
      · rfl
      · rfl
  · unfold toggleVideoInPlaylist
    cases hv : s.video
    · rfl
    · rfl

/-- C4 (amended): when a page fetch fails, the item collection is untouched
in every view, and Home and Threads also leave the page counter untouched;
SuggestedVideos' `fetchPage` itself never touches `page`, but its
`onLoadMore` advances `page` before awaiting the fetch and does not restore
it on failure, so after a failed load-more the page counter reads one higher
than before. -/
theorem loadNext_failure_preserves :
    (∀ (s : HomeState) (t : Int) (a : Bool),
      (homeFetchPage s t a (.error ())).items = s.items ∧
      (homeFetchPage s t a (.error ())).page = s.page) ∧
    (∀ (s : ThreadsState) (t : Int) (a : Bool) (m : String),
      (threadsFetchPage s t a (.error m)).rows = s.rows ∧
      (threadsFetchPage s t a (.error m)).page = s.page) ∧
    (∀ (vid : String) (s : SvState) (p : Int),
      (svFetchPage vid s p (.error ())).items = s.items ∧
      (svFetchPage vid s p (.error ())).page = s.page) ∧
    (∀ (vid : String) (s : SvState),
      s.loadingMore = false → s.loading = false → svHasMore s = true →
      (svOnLoadMore vid s (.error ())).items = s.items ∧
      (svOnLoadMore vid s (.error ())).page = s.page + 1) := by
  refine ⟨?_, ?_, ?_, ?_⟩
  · intro s t a
    unfold homeFetchPage
    split
    · exact ⟨rfl, rfl⟩
    · exact ⟨rfl, rfl⟩
  · intro s t a m
    unfold threadsFetchPage
    split
    · exact ⟨rfl, rfl⟩
    · exact ⟨rfl, rfl⟩
  · intro vid s p
    unfold svFetchPage
    split
    · exact ⟨rfl, rfl⟩
    · exact ⟨rfl, rfl⟩
  · intro vid s h1 h2 h3
    have hc : (s.loadingMore || s.loading || !svHasMore s) = false := by
      rw [h1, h2, h3]
      rfl
    unfold svOnLoadMore
    rw [hc]
    simp only [Bool.false_eq_true, if_false]
    unfold svFetchPage
    split
    · exact ⟨rfl, rfl⟩
    · exact ⟨rfl, rfl⟩

/-- C4 counterexample: with one more server page available and a failing
fetch, `SuggestedVideos.onLoadMore` leaves `page = 2` although it was `1`
before the call — the page counter is not left as it was. -/
theorem sv_onLoadMore_error_advances_page :
    svStart.page = 1 ∧ (svOnLoadMore "vid1" svStart (.error ())).page = 2 := by
  constructor
  · rfl
  · decide

/-- C4 witness: the amended theorem applied to the concrete state. -/
theorem loadNext_failure_preserves_witness :
    (svOnLoadMore "vid1" svStart (.error ())).items = svStart.items ∧
    (svOnLoadMore "vid1" svStart (.error ())).page = svStart.page + 1 :=
  loadNext_failure_preserves.2.2.2 "vid1" svStart rfl rfl (by decide)

/-- C5 (amended): two synchronous `loadNext` invocations before the first
resolves issue exactly one request in the views guarded by a mutable ref
(Home's `lockRef`, Threads' `loadingRef`): the second invocation is dropped,
not queued.  SuggestedVideos' `onLoadMore` guard reads only `useState`
values of the current render snapshot, which a synchronous second call still
sees unchanged, so both invocations pass the guard and two requests are
issued. -/
theorem loadNext_reentrancy :
    (∀ n : Nat, (homeLoadNextOnce (homeLoadNextOnce
      { lock := false, requests := n })).requests = n + 1) ∧
    (∀ n : Nat, (threadsLoadNextOnce (threadsLoadNextOnce
      { loadingRef := false, requests := n })).requests = n + 1) ∧
    (∀ (snap : SvSnapshot) (n : Nat),
      snap.loadingMore = false → snap.loading = false →
      snap.page < snap.totalPages → snap.videoId ≠ "" →
      svLoadMoreOnce snap (svLoadMoreOnce snap n) = n + 2) := by
  refine ⟨fun n => rfl, fun n => rfl, ?_⟩
  intro snap n h1 h2 h3 h4
  unfold svLoadMoreOnce
  simp [h1, h2, h3, h4]

/-- C5 counterexample: from a snapshot with another page available and
nothing in flight, two synchronous `onLoadMore` invocations of
SuggestedVideos issue two requests, not one. -/
theorem sv_double_loadMore_two_requests :
    svLoadMoreOnce svSnap (svLoadMoreOnce svSnap 0) = 2 := by decide

/-- C5 witness: the amended theorem applied to the concrete snapshot. -/
theorem loadNext_reentrancy_witness :
    svLoadMoreOnce svSnap (svLoadMoreOnce svSnap 0) = 0 + 2 :=
  loadNext_reentrancy.2.2 svSnap 0 rfl rfl (by decide) (by decide)

/-- C7: when an incoming page contains a key already present in the previous
(duplicate-free) collection, the merge keeps the item at its first-insertion
position but replaces its data with the incoming page's (last) version, and
appends only the genuinely new items; concretely, two pages of ten with one
identity collision merge into the expected nineteen unique items, the
colliding item carrying the page-two data at its original position 9. -/
theorem merge_update_in_place :
    (∀ (P I : List SuggestedVideo), (P.map SuggestedVideo._id).Nodup →
      mergeById SuggestedVideo._id P I =
        P.map (fun x => (lastWith SuggestedVideo._id x._id I).getD x) ++
          newItems SuggestedVideo._id (P.map SuggestedVideo._id) I) ∧
    mergeById SuggestedVideo._id pageOne pageTwo = expectedMerge ∧
    expectedMerge.length = 19 ∧
    expectedMerge[9]? = some { mkSv 10 with title := "updated" } ∧
    (expectedMerge.map SuggestedVideo._id).Nodup := by
  refine ⟨fun P I h => mergeById_characterize SuggestedVideo._id P I h,
    ?_, ?_, ?_, ?_⟩ <;> decide

/-- C7 witness: the general conjunct applied to the concrete scenario-B
pages, the duplicate-freedom hypothesis discharged by evaluation. -/
theorem merge_update_in_place_witness :
    mergeById SuggestedVideo._id pageOne pageTwo =
      pageOne.map (fun x => (lastWith SuggestedVideo._id x._id pageTwo).getD x)
        ++ newItems SuggestedVideo._id (pageOne.map SuggestedVideo._id)
          pageTwo :=
  merge_update_in_place.1 pageOne pageTwo (by decide)

/-- C8 counterexample: the reset effects do NOT set `hasMore` to `true`.
SuggestedVideos resets `totalPages` to 1 so `hasMore = page < totalPages`
flips from `true` to `false`; CommentsSection sets `hasNextPage` to
`false` outright. -/
theorem reset_leaves_hasMore_false :
    svHasMore svStart = true ∧ svHasMore (svReset svStart) = false ∧
    commentsMid.hasNextPage = true ∧
    (commentsReset commentsMid).hasNextPage = false := by decide

/-- C8 (amended): when the view's subject changes, the reset clears the item
collection and sets `page` to 1, but leaves `hasMore` FALSE — pessimistic
until the first fetch installs the server totals — in both cited views. -/
theorem pager_reset_state :
    (∀ s : SvState, (svReset s).items = [] ∧ (svReset s).page = 1 ∧
      (svReset s).totalPages = 1 ∧ svHasMore (svReset s) = false) ∧
    (∀ c : CommentsState, (commentsReset c).items = [] ∧
      (commentsReset c).page = 1 ∧ (commentsReset c).hasNextPage = false ∧
      (commentsReset c).totalDocs = 0) :=
  ⟨fun _ => ⟨rfl, rfl, rfl, rfl⟩, fun _ => ⟨rfl, rfl, rfl, rfl⟩⟩

theorem jsOr_cases (a b : JsVal) : jsOr a b = a ∨ jsOr a b = b := by
  unfold jsOr
  by_cases h : jsTruthy a = true
  · rw [if_pos h]; exact Or.inl rfl
  · rw [if_neg h]; exact Or.inr rfl

theorem plDocs_mem (p : JsVal) : plDocs p ∈ plCandidates p := by
  unfold plDocs plCandidates
  rcases jsOr_cases (optChain (plBase p) "docs") _ with h | h
  · rw [h]; simp
  · rw [h]
    rcases jsOr_cases (optChain (optChain (plBase p) "data") "docs") _
      with h2 | h2
    · rw [h2]; simp
    · rw [h2]
      rcases jsOr_cases
        (optChain (optChain (optChain (plBase p) "data") "data") "docs") _
        with h3 | h3
      · rw [h3]; simp
      · rw [h3]
        rcases jsOr_cases (optChain (plBase p) "data") (plBase p) with h4 | h4
        · rw [h4]; simp
        · rw [h4]; simp

theorem jarr_of_isArr {v : JsVal} (h : isArr v = true) :
    v = JsVal.jarr (asArr v) := by
  cases v <;> simp [isArr] at h ⊢
  rfl

/-- C9: the fetch-envelope normalizer never throws (it is a total function)
and is sound: its result is either the empty list — the "empty page" the
callers render — or an array physically present at one of the checked
envelope locations (possibly behind one further `.docs`); so whenever no
array can be located under the checked shapes, the result is `[]`.
Likewise Home's docs guard: with the lock free, a replace-mode fetch whose
response carries no docs array installs the empty collection instead of
failing. -/
theorem envelope_normalizer_empty_fallback :
    (∀ payload : JsVal,
      extractPlaylists payload = [] ∨
      ∃ c ∈ plCandidates payload,
        c = JsVal.jarr (extractPlaylists payload) ∨
        optChain c "docs" = JsVal.jarr (extractPlaylists payload)) ∧
    (∀ (s : HomeState) (t : Int) (res : HomeResp),
      s.lock = false → res.data.bind (fun d => d.docs) = none →
      (homeFetchPage s t false (.ok res)).items = []) := by
  constructor
  · intro payload
    unfold extractPlaylists
    by_cases h1 : isArr (plDocs payload) = true
    · simp only [h1, if_true]
      exact Or.inr ⟨plDocs payload, plDocs_mem payload,
        Or.inl (jarr_of_isArr h1)⟩
    · simp only [h1]
      simp only [Bool.false_eq_true, if_false]
      by_cases h2 : isArr (optChain (plDocs payload) "docs") = true
      · simp only [h2, if_true]
        exact Or.inr ⟨plDocs payload, plDocs_mem payload,
          Or.inr (jarr_of_isArr h2)⟩
      · simp only [h2]
        simp only [Bool.false_eq_true, if_false]
        exact Or.inl trivial
  · intro s t res h1 h2
    unfold homeFetchPage
    rw [h1]
    simp only [Bool.false_eq_true, if_false]
    show ((res.data.bind (fun d => d.docs)).getD []) = []
    rw [h2]
    rfl

/-- C9 witness: a response with no data object at all yields the empty
collection in Home's replace mode. -/
theorem envelope_normalizer_empty_fallback_witness :
    (homeFetchPage homeStart 1 false (.ok ⟨none⟩)).items = [] :=
  envelope_normalizer_empty_fallback.2 homeStart 1 ⟨none⟩ rfl rfl

/-- C10: unlike the merge-by-id views, the comments list appends a fetched
page by plain concatenation — the new items are exactly the old list
followed by the fetched docs, with no de-duplication by `_id`, so a comment
returned in two pages appears twice. -/
theorem comments_append_is_concat :
    (∀ (s : CommentsState) (p : Int) (d : CommentsPageData),
      (commentsFetchPage s p .append (.ok d)).items =
        s.items ++ d.docs.getD []) ∧
    (commentsFetchPage commentsWithC 2 .append
      (.ok dupPage)).items.count sampleComment = 2 := by
  constructor
  · intro s p d
    rfl
  · decide
